import Mathlib

/-!
Verification of the physical-ai-book-backend RAG pipeline.

The development embeds the pure core of the repository:
- the Chunker `split_content` from `index_book.py` (Python strings are
  modelled as `List Char`; `str.split` on a blank line and `str.strip`
  are modelled character-exactly),
- the retrieval / answer-synthesis pipeline of
  `app/services/rag_service.py`, with the external effects (embedding
  model, Qdrant vector index, OpenAI chat completion) given as oracle
  functions that may fail, and an event trace recording which external
  calls were performed,
- the batch indexing driver `index_markdown_files` from `index_book.py`,
  with file reading and `add_document` given as oracles.
-/

namespace PhysicalAIBook

/-! ## Python string primitives -/

/-- Whitespace characters stripped by Python `str.strip()` (the ASCII
whitespace set `" \t\n\r\x0b\x0c"`; the exotic Unicode whitespace
characters are irrelevant to every claim). -/
def isPySpace (c : Char) : Bool :=
  c == ' ' || c == '\t' || c == '\n' || c == '\r' || c == '\x0b' || c == '\x0c'

/-- The paragraph separator `"\n\n"` used by `split_content`. -/
def sepNN : List Char := ['\n', '\n']

/-- Python `text.split('\n\n')`: split on each non-overlapping occurrence
of the two-character separator, scanning left to right, keeping empty
pieces; the empty string yields `[""]`. -/
def splitPara : List Char → List (List Char)
  | [] => [[]]
  | '\n' :: '\n' :: rest => [] :: splitPara rest
  | c :: rest =>
    match splitPara rest with
    | [] => [[c]]
    | p :: ps => (c :: p) :: ps

/-- Python `s.strip()`: drop whitespace from both ends (right end first;
the order does not matter for the result). -/
def pyStrip (s : List Char) : List Char :=
  List.dropWhile isPySpace (((s.reverse).dropWhile isPySpace).reverse)

/-! ## Chunker (`split_content`, index_book.py lines 63-82) -/

/-- The loop state of `split_content`: the chunks flushed so far and the
running buffer `current_chunk`. -/
structure SplitState where
  chunks : List (List Char)
  current : List Char
deriving DecidableEq

/-- One iteration of the paragraph loop in `split_content`. -/
def splitStep (maxLength : Nat) (st : SplitState) (para : List Char) : SplitState :=
  if st.current.length + para.length < maxLength then
    { st with current := st.current ++ para ++ sepNN }
  else
    { chunks := if st.current = [] then st.chunks else st.chunks ++ [pyStrip st.current],
      current := para ++ sepNN }

/-- The state after the whole paragraph loop of `split_content`. -/
def splitFold (text : List Char) (maxLength : Nat) : SplitState :=
  (splitPara text).foldl (splitStep maxLength) ⟨[], []⟩

/-- Definition of `split_content(text, max_length)` from index_book.py: greedy
paragraph accumulation, flush with `strip()`, with the final
`chunks if chunks else [text]` fallback. -/
def split_content (text : List Char) (maxLength : Nat) : List (List Char) :=
  let st := splitFold text maxLength
  let chunks := if st.current = [] then st.chunks else st.chunks ++ [pyStrip st.current]
  if chunks = [] then [text] else chunks

/-! ## RAG service (app/services/rag_service.py)

The external collaborators are oracles in a `RagEnv`:
`embed` is the SentenceTransformer encode (may raise), `vsearch` is
`qdrant_client.search` (may raise), `chat` is the OpenAI chat completion
(may raise).  Similarity scores are modelled as rationals.  Each service
operation additionally returns the trace of external calls it performed,
so that "no embedding or index lookup is performed" is a statement about
the trace. -/

/-- A hit returned by the vector index: payload text, payload source,
similarity score. -/
structure SearchHit where
  text : String
  source : String
  score : ℚ
deriving DecidableEq

/-- A retrieved chunk as built by `RAGService.search` /
`generate_answer`: the dict with keys text, source, score. -/
structure RetrievedDoc where
  text : String
  source : String
  score : ℚ
deriving DecidableEq

/-- The answer/sources/confidence dict returned by `generate_answer`. -/
structure AnswerResult where
  answer : String
  sources : List String
  confidence : ℚ
deriving DecidableEq

/-- External calls the service can perform. -/
inductive Event where
  | embedCall : String → Event
  | vsearchCall : Nat → Event
  | chatCall : Event
deriving DecidableEq

/-- Oracles for the three external collaborators; `Except.error`
models a raised exception. -/
structure RagEnv where
  embed : String → Except String (List ℚ)
  vsearch : List ℚ → Nat → Except String (List SearchHit)
  chat : String → String → Except String String

/-- Model of `RAGService.embed_text`: calls the embedding model; on failure it
logs and re-raises, so the error propagates unchanged. -/
def embed_text (env : RagEnv) (text : String) : Except String (List ℚ) :=
  env.embed text

/-- Model of `RAGService.search`: embed the query, search the index, build the
result dicts; any exception in the `try` block is caught and an empty
list is returned.  The second component is the trace of external calls
performed. -/
def search (env : RagEnv) (query : String) (limit : Nat) :
    List RetrievedDoc × List Event :=
  match embed_text env query with
  | .error _ => ([], [Event.embedCall query])
  | .ok query_vector =>
    match env.vsearch query_vector limit with
    | .error _ => ([], [Event.embedCall query, Event.vsearchCall limit])
    | .ok results =>
      (results.map (fun hit => ⟨hit.text, hit.source, hit.score⟩),
       [Event.embedCall query, Event.vsearchCall limit])

/-- The fixed system prompt of `generate_answer`. -/
def system_prompt : String :=
  "You are a helpful assistant for a Physical AI & Humanoid Robotics textbook. \nAnswer questions based on the provided context from the textbook. \nIf the answer is not in the context, say so clearly.\nBe concise and technical but easy to understand."

/-- The joined context block: `"\n\n".join(f"Source: ...\n...")`. -/
def context_text (relevant_docs : List RetrievedDoc) : String :=
  String.intercalate "\n\n"
    (relevant_docs.map (fun doc => "Source: " ++ doc.source ++ "\n" ++ doc.text))

/-- The user prompt of `generate_answer`. -/
def user_prompt (ctx question : String) : String :=
  "Context from textbook:\n" ++ ctx ++ "\n\nQuestion: " ++ question ++
    "\n\nPlease provide a clear and accurate answer based on the context above."

/-- Python truthiness of the `context: str = None` parameter:
`if context:` is true iff the argument is neither `None` nor `""`. -/
def truthyStr : Option String → Bool
  | none => false
  | some s => s != ""

/-- The fixed not-found answer text of `generate_answer`. -/
def notFoundAnswer : String :=
  "I couldn\x27t find relevant information in the textbook to answer your question."

/-- The `relevant_docs` value in `generate_answer`: the wrapped explicit
context when it is truthy, otherwise the search result.  The second
component is the trace of external calls. -/
def relevant_docs (env : RagEnv) (question : String) (context : Option String) :
    List RetrievedDoc × List Event :=
  if truthyStr context then
    ([⟨context.getD "", "Selected Text", 1⟩], [])
  else
    search env question 3

/-- Model of `RAGService.generate_answer`: wrap explicit context or search, the
empty-result short circuit, prompt construction, the chat call (whose
exception re-raises through the outer `except`), and the result dict
with top-hit confidence. -/
def generate_answer (env : RagEnv) (question : String) (context : Option String) :
    Except String AnswerResult × List Event :=
  if (relevant_docs env question context).1.isEmpty then
    (.ok ⟨notFoundAnswer, [], 0⟩, (relevant_docs env question context).2)
  else
    match env.chat system_prompt
        (user_prompt (context_text (relevant_docs env question context).1) question) with
    | .error e => (.error e, (relevant_docs env question context).2 ++ [Event.chatCall])
    | .ok answer =>
      (.ok ⟨answer, (relevant_docs env question context).1.map (fun doc => doc.source),
            match (relevant_docs env question context).1 with | [] => 0 | d :: _ => d.score⟩,
       (relevant_docs env question context).2 ++ [Event.chatCall])

/-! ## Batch indexing pipeline (`index_markdown_files`, index_book.py) -/

/-- Oracles for the indexing driver: `read` is opening and reading a
markdown file (paths are identified with the relative source labels the
driver derives from them), `add` is `rag_service.add_document(text,
source, doc_id)`, which re-raises any embedding or upsert failure. -/
structure IndexEnv where
  read : String → Except String (List Char)
  add : List Char → String → Nat → Except String Unit

/-- The driver state: the running `doc_id` counter (starts at 1,
incremented after each successful `add_document`), the successfully
indexed (chunk source, id) pairs in order, and the files whose
processing raised. -/
structure IndexState where
  doc_id : Nat
  indexed : List (String × Nat)
  failures : List String
deriving DecidableEq

/-- The per-chunk source label: `f"{source} (Part {i+1})"` when the
document split into several chunks, the bare source otherwise. -/
def chunkSource (source : String) (total i : Nat) : String :=
  if total > 1 then source ++ " (Part " ++ toString (i + 1) ++ ")" else source

/-- The inner chunk loop of `index_markdown_files`: `for i, chunk in
enumerate(chunks)`.  An `add_document` failure raises out of the loop to
the per-file handler, so the rest of the chunks of that file are
skipped; the Bool records whether the loop completed. -/
def addChunks (env : IndexEnv) (source : String) (total : Nat) :
    Nat → IndexState → List (List Char) → IndexState × Bool
  | _, st, [] => (st, true)
  | i, st, chunk :: rest =>
    match env.add chunk (chunkSource source total i) st.doc_id with
    | .ok _ =>
      addChunks env source total (i + 1)
        { st with
            doc_id := st.doc_id + 1,
            indexed := st.indexed ++ [(chunkSource source total i, st.doc_id)] } rest
    | .error _ => (st, false)

/-- Processing of one markdown file inside the `for md_file in md_files`
loop: read (a failure is caught by the per-file handler), skip
near-empty files, chunk with `split_content(content, 1000)`, add each
chunk; any raise is caught, logged as a failure, and the loop goes on. -/
def indexFile (env : IndexEnv) (st : IndexState) (path : String) : IndexState :=
  match env.read path with
  | .error _ => { st with failures := st.failures ++ [path] }
  | .ok content =>
    if (pyStrip content).length < 50 then st
    else if (addChunks env path (split_content content 1000).length 0 st
        (split_content content 1000)).2 then
      (addChunks env path (split_content content 1000).length 0 st
        (split_content content 1000)).1
    else
      { (addChunks env path (split_content content 1000).length 0 st
          (split_content content 1000)).1 with
          failures := (addChunks env path (split_content content 1000).length 0 st
            (split_content content 1000)).1.failures ++ [path] }

/-- Definition of `index_markdown_files` restricted to its per-file loop, over the
list of discovered markdown files. -/
def index_markdown_files (env : IndexEnv) (files : List String) : IndexState :=
  files.foldl (indexFile env) ⟨1, [], []⟩

/-- The final `doc_id - 1` count printed by the pipeline. -/
def finalCount (st : IndexState) : Nat := st.doc_id - 1

/-! ## Lemmas about the Python string primitives -/

theorem dropWhile_append_of_all {p : Char → Bool} :
    ∀ ws s : List Char, (∀ c ∈ ws, p c = true) →
      List.dropWhile p (ws ++ s) = List.dropWhile p s := by
  intro ws s h
  induction ws with
  | nil => rfl
  | cons c ws ih =>
    have hc : p c = true := h c (by simp)
    simp only [List.cons_append, List.dropWhile, hc]
    exact ih (fun c hc => h c (by simp [hc]))

theorem dropWhile_eq_nil_of_all {p : Char → Bool} :
    ∀ s : List Char, (∀ c ∈ s, p c = true) → List.dropWhile p s = [] := by
  intro s h
  induction s with
  | nil => rfl
  | cons c s ih =>
    have hc : p c = true := h c (by simp)
    simp only [List.dropWhile, hc]
    exact ih (fun c hc => h c (by simp [hc]))

theorem length_dropWhile_le' (p : Char → Bool) (s : List Char) :
    (List.dropWhile p s).length ≤ s.length := by
  induction s with
  | nil => simp
  | cons c s ih =>
    by_cases hc : p c
    · simp only [List.dropWhile, hc]
      exact Nat.le_succ_of_le ih
    · simp [List.dropWhile, hc]

theorem pyStrip_length_le (s : List Char) : (pyStrip s).length ≤ s.length := by
  unfold pyStrip
  calc (List.dropWhile isPySpace (((s.reverse).dropWhile isPySpace).reverse)).length
      ≤ (((s.reverse).dropWhile isPySpace).reverse).length := length_dropWhile_le' _ _
    _ = ((s.reverse).dropWhile isPySpace).length := by rw [List.length_reverse]
    _ ≤ s.reverse.length := length_dropWhile_le' _ _
    _ = s.length := by rw [List.length_reverse]

theorem sepNN_all_space : ∀ c ∈ sepNN, isPySpace c = true := by decide

theorem pyStrip_append_sep (xs : List Char) : pyStrip (xs ++ sepNN) = pyStrip xs := by
  unfold pyStrip
  have h : (xs ++ sepNN).reverse = sepNN ++ xs.reverse := by
    rw [List.reverse_append]; rfl
  rw [h, dropWhile_append_of_all _ _ sepNN_all_space]

theorem pyStrip_eq_nil_of_all_space {s : List Char}
    (h : ∀ c ∈ s, isPySpace c = true) : pyStrip s = [] := by
  unfold pyStrip
  have : List.dropWhile isPySpace s.reverse = [] :=
    dropWhile_eq_nil_of_all _ (fun c hc => h c (List.mem_reverse.mp hc))
  rw [this]
  rfl

theorem filter_nonspace_dropWhile (s : List Char) :
    (List.dropWhile isPySpace s).filter (fun c => !isPySpace c) =
      s.filter (fun c => !isPySpace c) := by
  induction s with
  | nil => rfl
  | cons c s ih =>
    by_cases hc : isPySpace c
    · simp [List.dropWhile, hc, ih]
    · simp [List.dropWhile, hc]

theorem filter_nonspace_pyStrip (s : List Char) :
    (pyStrip s).filter (fun c => !isPySpace c) = s.filter (fun c => !isPySpace c) := by
  unfold pyStrip
  rw [filter_nonspace_dropWhile, List.filter_reverse, filter_nonspace_dropWhile,
    List.filter_reverse, List.reverse_reverse]

/-! ## Lemmas about `splitPara` -/

theorem splitPara_sep (rest : List Char) :
    splitPara ('\n' :: '\n' :: rest) = [] :: splitPara rest := rfl

theorem splitPara_cons (c : Char) (rest : List Char)
    (h : ∀ r : List Char, c = '\n' → rest = '\n' :: r → False) :
    splitPara (c :: rest) =
      match splitPara rest with
      | [] => [[c]]
      | p :: ps => (c :: p) :: ps := by
  rw [splitPara.eq_def]
  split
  · rename_i heq
    exact absurd heq (by simp)
  · rename_i rest' heq
    injection heq with h1 h2
    exact (h rest' h1 h2).elim
  · rename_i c' rest' hg heq
    injection heq with h1 h2
    subst h1
    subst h2
    rfl

theorem splitPara_ne_nil (s : List Char) : splitPara s ≠ [] := by
  induction s using splitPara.induct with
  | case1 => simp [splitPara]
  | case2 rest ih => rw [splitPara_sep]; simp
  | case3 c rest h heq ih => exact absurd heq ih
  | case4 c rest h p ps heq ih =>
    rw [splitPara_cons c rest h, heq]
    simp

/-- Inverse of `splitPara`: Python `'\n\n'.join(pieces)`. -/
def joinSep : List (List Char) → List Char
  | [] => []
  | [p] => p
  | p :: ps => p ++ sepNN ++ joinSep ps

theorem joinSep_cons_of_ne_nil (p : List Char) {ps : List (List Char)} (h : ps ≠ []) :
    joinSep (p :: ps) = p ++ sepNN ++ joinSep ps := by
  cases ps with
  | nil => exact absurd rfl h
  | cons q qs => rfl

theorem joinSep_splitPara (s : List Char) : joinSep (splitPara s) = s := by
  induction s using splitPara.induct with
  | case1 => rfl
  | case2 rest ih =>
    rw [splitPara_sep, joinSep_cons_of_ne_nil _ (splitPara_ne_nil rest), ih]
    rfl
  | case3 c rest h heq ih => exact absurd heq (splitPara_ne_nil rest)
  | case4 c rest h p ps heq ih =>
    rw [splitPara_cons c rest h, heq]
    rw [heq] at ih
    cases ps with
    | nil =>
      show c :: p = c :: rest
      have hp : p = rest := ih
      rw [hp]
    | cons q qs =>
      rw [joinSep_cons_of_ne_nil _ (by simp)] at ih ⊢
      rw [← ih]
      rfl

theorem mem_joinSep {l : List (List Char)} {p : List Char} {c : Char}
    (hp : p ∈ l) (hc : c ∈ p) : c ∈ joinSep l := by
  induction hp with
  | head as =>
    cases as with
    | nil => exact hc
    | cons r rs =>
      rw [joinSep_cons_of_ne_nil _ (by simp)]
      exact List.mem_append_left _ (List.mem_append_left _ hc)
  | tail q hmem ih =>
    rename_i as
    cases as with
    | nil => cases hmem
    | cons r rs =>
      rw [joinSep_cons_of_ne_nil _ (by simp)]
      exact List.mem_append_right _ ih

theorem mem_of_mem_splitPara {s p : List Char} {c : Char}
    (hp : p ∈ splitPara s) (hc : c ∈ p) : c ∈ s := by
  have := mem_joinSep hp hc
  rwa [joinSep_splitPara] at this

/-! ## Invariants of the `split_content` loop -/

/-- A chunk is within the bound, or is the strip of a single paragraph
that itself exceeds the bound. -/
def goodChunk (paras : List (List Char)) (maxL : Nat) (c : List Char) : Prop :=
  c.length ≤ maxL ∨ ∃ p ∈ paras, c = pyStrip p ∧ maxL < p.length

/-- Shape of the running buffer: empty, a single paragraph plus the
separator, or a body shorter than the bound plus the separator. -/
def curInv (paras : List (List Char)) (maxL : Nat) (cur : List Char) : Prop :=
  cur = [] ∨ (∃ p ∈ paras, cur = p ++ sepNN) ∨
    (∃ xs : List Char, cur = xs ++ sepNN ∧ xs.length < maxL)

theorem goodChunk_pyStrip_of_curInv {paras : List (List Char)} {maxL : Nat}
    {cur : List Char} (h : curInv paras maxL cur) (hne : cur ≠ []) :
    goodChunk paras maxL (pyStrip cur) := by
  rcases h with h | ⟨p, hp, rfl⟩ | ⟨xs, rfl, hxs⟩
  · exact absurd h hne
  · rw [pyStrip_append_sep]
    by_cases hl : (pyStrip p).length ≤ maxL
    · exact Or.inl hl
    · refine Or.inr ⟨p, hp, rfl, ?_⟩
      have := pyStrip_length_le p
      omega
  · rw [pyStrip_append_sep]
    exact Or.inl (le_trans (pyStrip_length_le xs) (Nat.le_of_lt hxs))

theorem splitStep_inv {paras : List (List Char)} {maxL : Nat} {st : SplitState}
    {para : List Char} (hp : para ∈ paras)
    (hc : ∀ c ∈ st.chunks, goodChunk paras maxL c)
    (hcur : curInv paras maxL st.current) :
    (∀ c ∈ (splitStep maxL st para).chunks, goodChunk paras maxL c) ∧
      curInv paras maxL (splitStep maxL st para).current := by
  unfold splitStep
  by_cases hlt : st.current.length + para.length < maxL
  · simp only [hlt, if_true]
    refine ⟨hc, Or.inr (Or.inr ⟨st.current ++ para, ?_, ?_⟩)⟩
    · rw [List.append_assoc]
    · rw [List.length_append]; exact hlt
  · simp only [hlt, if_false]
    refine ⟨?_, Or.inr (Or.inl ⟨para, hp, rfl⟩)⟩
    by_cases hne : st.current = []
    · simp only [hne, if_true]
      exact hc
    · simp only [hne, if_false]
      intro c hcmem
      rcases List.mem_append.mp hcmem with h | h
      · exact hc c h
      · rw [List.mem_singleton.mp h]
        exact goodChunk_pyStrip_of_curInv hcur hne

theorem foldl_splitStep_inv {paras : List (List Char)} {maxL : Nat} :
    ∀ (ps : List (List Char)) (st : SplitState), (∀ p ∈ ps, p ∈ paras) →
      (∀ c ∈ st.chunks, goodChunk paras maxL c) → curInv paras maxL st.current →
      (∀ c ∈ (ps.foldl (splitStep maxL) st).chunks, goodChunk paras maxL c) ∧
        curInv paras maxL (ps.foldl (splitStep maxL) st).current := by
  intro ps
  induction ps with
  | nil => exact fun st _ hc hcur => ⟨hc, hcur⟩
  | cons p ps ih =>
    intro st hps hc hcur
    have hstep := splitStep_inv (hps p (by simp)) hc hcur
    exact ih _ (fun q hq => hps q (by simp [hq])) hstep.1 hstep.2

theorem splitStep_current_ne_nil (maxL : Nat) (st : SplitState) (para : List Char) :
    (splitStep maxL st para).current ≠ [] := by
  unfold splitStep
  by_cases hlt : st.current.length + para.length < maxL <;>
    simp [hlt, sepNN]

theorem foldl_splitStep_current_ne_nil (maxL : Nat) :
    ∀ (ps : List (List Char)) (st : SplitState) (p : List Char),
      ((p :: ps).foldl (splitStep maxL) st).current ≠ [] := by
  intro ps
  induction ps with
  | nil =>
    intro st p
    simpa using splitStep_current_ne_nil maxL st p
  | cons q qs ih =>
    intro st p
    simp only [List.foldl_cons]
    simpa using ih (splitStep maxL st p) q

theorem splitFold_current_ne_nil (text : List Char) (maxL : Nat) :
    (splitFold text maxL).current ≠ [] := by
  unfold splitFold
  cases h : splitPara text with
  | nil => exact absurd h (splitPara_ne_nil text)
  | cons p ps =>
    exact foldl_splitStep_current_ne_nil maxL ps ⟨[], []⟩ p

/-- The `chunks if chunks else [text]` fallback of `split_content` is
never taken: the flushed chunk list is always non-empty. -/
theorem split_content_eq (text : List Char) (maxL : Nat) :
    split_content text maxL =
      (splitFold text maxL).chunks ++ [pyStrip (splitFold text maxL).current] := by
  unfold split_content
  have hne := splitFold_current_ne_nil text maxL
  simp only [hne, if_false]
  have : (splitFold text maxL).chunks ++ [pyStrip (splitFold text maxL).current] ≠ [] := by
    simp
  simp only [this, if_false]

/-! ## Content preservation through the loop -/

/-- The non-whitespace content of a string (what survives `strip()` and
separator insertion). -/
def filterNS (s : List Char) : List Char := s.filter (fun c => !isPySpace c)

theorem filterNS_append (a b : List Char) : filterNS (a ++ b) = filterNS a ++ filterNS b :=
  List.filter_append a b

theorem filterNS_sepNN : filterNS sepNN = [] := by decide

theorem filterNS_pyStrip (s : List Char) : filterNS (pyStrip s) = filterNS s :=
  filter_nonspace_pyStrip s

theorem splitStep_content (maxL : Nat) (st : SplitState) (para : List Char) :
    filterNS ((splitStep maxL st para).chunks.flatten ++ (splitStep maxL st para).current) =
      filterNS (st.chunks.flatten ++ st.current) ++ filterNS para := by
  unfold splitStep
  by_cases hlt : st.current.length + para.length < maxL
  · simp only [hlt, if_true]
    simp [filterNS_append, filterNS_sepNN]
  · simp only [hlt, if_false]
    by_cases hne : st.current = []
    · simp [hne, filterNS_append, filterNS_sepNN]
    · simp only [hne, if_false]
      simp [filterNS_append, filterNS_sepNN, filterNS_pyStrip]

theorem foldl_splitStep_content (maxL : Nat) :
    ∀ (ps : List (List Char)) (st : SplitState),
      filterNS (((ps.foldl (splitStep maxL) st).chunks).flatten ++
          (ps.foldl (splitStep maxL) st).current) =
        filterNS (st.chunks.flatten ++ st.current) ++ (ps.map filterNS).flatten := by
  intro ps
  induction ps with
  | nil => simp
  | cons p ps ih =>
    intro st
    simp only [List.foldl_cons, List.map_cons, List.flatten_cons]
    rw [ih, splitStep_content, List.append_assoc]

theorem filterNS_joinSep (l : List (List Char)) :
    filterNS (joinSep l) = (l.map filterNS).flatten := by
  induction l with
  | nil => rfl
  | cons p ps ih =>
    cases ps with
    | nil => simp [joinSep, filterNS]
    | cons q qs =>
      rw [joinSep_cons_of_ne_nil _ (by simp), filterNS_append, filterNS_append,
        filterNS_sepNN, ih]
      simp

/-! ## All-whitespace inputs -/

theorem splitStep_all_space (maxL : Nat) {st : SplitState} {para : List Char}
    (hp : ∀ c ∈ para, isPySpace c = true)
    (hch : ∀ c ∈ st.chunks, c = [])
    (hcur : ∀ c ∈ st.current, isPySpace c = true) :
    (∀ c ∈ (splitStep maxL st para).chunks, c = []) ∧
      (∀ c ∈ (splitStep maxL st para).current, isPySpace c = true) := by
  unfold splitStep
  by_cases hlt : st.current.length + para.length < maxL
  · simp only [hlt, if_true]
    refine ⟨hch, ?_⟩
    intro c hc
    rcases List.mem_append.mp hc with h | h
    · rcases List.mem_append.mp h with h | h
      · exact hcur c h
      · exact hp c h
    · exact sepNN_all_space c h
  · simp only [hlt, if_false]
    constructor
    · by_cases hne : st.current = []
      · simp only [hne, if_true]
        exact hch
      · simp only [hne, if_false]
        intro c hc
        rcases List.mem_append.mp hc with h | h
        · exact hch c h
        · rw [List.mem_singleton.mp h]
          exact pyStrip_eq_nil_of_all_space hcur
    · intro c hc
      rcases List.mem_append.mp hc with h | h
      · exact hp c h
      · exact sepNN_all_space c h

theorem foldl_splitStep_all_space {maxL : Nat} :
    ∀ (ps : List (List Char)) (st : SplitState),
      (∀ p ∈ ps, ∀ c ∈ p, isPySpace c = true) →
      (∀ c ∈ st.chunks, c = []) → (∀ c ∈ st.current, isPySpace c = true) →
      (∀ c ∈ (ps.foldl (splitStep maxL) st).chunks, c = []) ∧
        (∀ c ∈ (ps.foldl (splitStep maxL) st).current, isPySpace c = true) := by
  intro ps
  induction ps with
  | nil => exact fun st _ hch hcur => ⟨hch, hcur⟩
  | cons p ps ih =>
    intro st hps hch hcur
    have hstep := splitStep_all_space maxL (hps p (by simp)) hch hcur
    exact ih _ (fun q hq => hps q (by simp [hq])) hstep.1 hstep.2

example : splitPara "a\n\n\nb".data = ["a".data, "\nb".data] := by decide
example : splitPara "".data = [[]] := by decide
example : splitPara "\n\n".data = [[], []] := by decide
example : pyStrip " a b \n\n".data = "a b".data := by decide
example : split_content "Para1\n\nPara2\n\nPara3".data 1000 =
    ["Para1\n\nPara2\n\nPara3".data] := by decide
example : split_content "aa\n\nbb".data 5 = ["aa".data, "bb".data] := by decide
example : split_content "\n\n".data 2 = [[], []] := by decide
example : split_content " a".data 10 = [['a']] := by decide

/-! ## Claims about the Chunker -/

/-- C3: every chunk returned by `split_content text maxL` has length at
most `maxL`, except when it is (the strip of) a single paragraph of the
input whose own length exceeds `maxL`; such an oversized paragraph is
never subdivided and becomes its own chunk. -/
theorem chunk_length_bounded (text : List Char) (maxL : Nat) (c : List Char)
    (hc : c ∈ split_content text maxL) :
    c.length ≤ maxL ∨ ∃ p ∈ splitPara text, c = pyStrip p ∧ maxL < p.length := by
  rw [split_content_eq] at hc
  have hinv := @foldl_splitStep_inv (splitPara text) maxL (splitPara text) ⟨[], []⟩
    (fun p hp => hp) (fun c h => absurd h (List.not_mem_nil c)) (Or.inl rfl)
  rcases List.mem_append.mp hc with h | h
  · exact hinv.1 c h
  · rw [List.mem_singleton.mp h]
    exact goodChunk_pyStrip_of_curInv hinv.2 (splitFold_current_ne_nil text maxL)

/-- Witness for C3 at the input `"aa\n\nbb"` with bound 5. -/
theorem chunk_length_bounded_witness :
    "aa".data ∈ split_content "aa\n\nbb".data 5 ∧
      ("aa".data.length ≤ 5 ∨
        ∃ p ∈ splitPara "aa\n\nbb".data, "aa".data = pyStrip p ∧ 5 < p.length) :=
  ⟨by decide, chunk_length_bounded "aa\n\nbb".data 5 "aa".data (by decide)⟩

/-- C4 counterexample: on the input `" a"` the single chunk is `"a"`;
the leading space is dropped by `strip()` even though it is not an
inserted paragraph separator, so rejoining the chunks with the separator
does not reconstruct the input. -/
theorem split_content_drops_characters :
    split_content " a".data 10 = [['a']] ∧ joinSep [['a']] ≠ " a".data := by
  exact ⟨by decide, by decide⟩

/-- C4 (amended): the concatenation of the chunks of
`split_content text maxL` preserves exactly the non-whitespace
characters of `text`, in order; only whitespace (the inserted
separators and the whitespace trimmed at chunk boundaries by `strip()`)
may be dropped. -/
theorem split_content_preserves_content (text : List Char) (maxL : Nat) :
    filterNS ((split_content text maxL).flatten) = filterNS text := by
  rw [split_content_eq]
  have hflat :
      ((splitFold text maxL).chunks ++ [pyStrip (splitFold text maxL).current]).flatten =
        (splitFold text maxL).chunks.flatten ++ pyStrip (splitFold text maxL).current := by
    simp
  rw [hflat, filterNS_append, filterNS_pyStrip, ← filterNS_append]
  have h := foldl_splitStep_content maxL (splitPara text) ⟨[], []⟩
  unfold splitFold
  rw [h, ← filterNS_joinSep, joinSep_splitPara]
  simp [filterNS]

/-- C10 counterexample: the whitespace-only input `"\n\n"` with
`max_length = 2` yields two empty-string chunks, not a single one. -/
theorem split_content_whitespace_two_chunks :
    (∀ c ∈ sepNN, isPySpace c = true) ∧ split_content sepNN 2 = [[], []] ∧
      (split_content sepNN 2).length ≠ 1 := by
  exact ⟨by decide, by decide, by decide⟩

/-- C10 (amended): `split_content` always returns at least one chunk,
and the `[text]` fallback branch is unreachable because the running
buffer is non-empty after the paragraph loop; a whitespace-only input
yields chunks that are all the empty string (a single one in the common
case, but possibly several, as the counterexample shows). -/
theorem split_content_not_nil (text : List Char) (maxL : Nat) :
    split_content text maxL ≠ [] ∧ (splitFold text maxL).current ≠ [] ∧
      ((∀ c ∈ text, isPySpace c = true) → ∀ c ∈ split_content text maxL, c = []) := by
  refine ⟨?_, splitFold_current_ne_nil text maxL, ?_⟩
  · rw [split_content_eq]
    simp
  · intro hws c hc
    rw [split_content_eq] at hc
    have hps : ∀ p ∈ splitPara text, ∀ ch ∈ p, isPySpace ch = true :=
      fun p hp ch hch => hws ch (mem_of_mem_splitPara hp hch)
    have h := @foldl_splitStep_all_space maxL (splitPara text) ⟨[], []⟩ hps
      (fun c h => absurd h (List.not_mem_nil c)) (fun c h => absurd h (List.not_mem_nil c))
    rcases List.mem_append.mp hc with h1 | h1
    · exact h.1 c h1
    · rw [List.mem_singleton.mp h1]
      exact pyStrip_eq_nil_of_all_space h.2

/-- Witness for the amended C10 at the whitespace-only input `"\n\n"`. -/
theorem split_content_not_nil_witness :
    split_content sepNN 2 ≠ [] ∧ (splitFold sepNN 2).current ≠ [] ∧
      ∀ c ∈ split_content sepNN 2, c = [] :=
  ⟨(split_content_not_nil sepNN 2).1, (split_content_not_nil sepNN 2).2.1,
    (split_content_not_nil sepNN 2).2.2 (by decide)⟩

/-! ## Service lemmas -/

theorem truthyStr_some_of_ne {c : String} (h : c ≠ "") : truthyStr (some c) = true := by
  simp [truthyStr, h]

theorem chatCall_not_mem_search (env : RagEnv) (q : String) (limit : Nat) :
    Event.chatCall ∉ (search env q limit).2 := by
  unfold search embed_text
  cases he : env.embed q with
  | error e => simp
  | ok v =>
    cases hv : env.vsearch v limit with
    | error e => simp [hv]
    | ok hits => simp [hv]

theorem search_fst_nil_of_embed_error {env : RagEnv} {q e : String} (limit : Nat)
    (hembed : env.embed q = Except.error e) : (search env q limit).1 = [] := by
  unfold search embed_text
  rw [hembed]

theorem search_fst_nil_of_vsearch_error {env : RagEnv} {q e : String} {v : List ℚ}
    (limit : Nat) (hembed : env.embed q = Except.ok v)
    (hv : env.vsearch v limit = Except.error e) : (search env q limit).1 = [] := by
  unfold search embed_text
  simp [hembed, hv]

theorem relevant_docs_of_not_truthy {env : RagEnv} {q : String} {context : Option String}
    (hctx : truthyStr context = false) :
    relevant_docs env q context = search env q 3 := by
  unfold relevant_docs
  rw [hctx]
  simp

theorem generate_answer_of_search_nil {env : RagEnv} {q : String} {context : Option String}
    (hctx : truthyStr context = false) (hs : (search env q 3).1 = []) :
    generate_answer env q context = (Except.ok ⟨notFoundAnswer, [], 0⟩, (search env q 3).2) := by
  unfold generate_answer
  rw [relevant_docs_of_not_truthy hctx, hs]
  simp

/-! ## Claims about the RAG service -/

/-- C1: with a non-empty explicit context, `generate_answer` performs
exactly one external call (the chat completion), so no embedding and no
vector-index search is performed; and every successful result carries
source list `["Selected Text"]` and the fixed maximal confidence 1. -/
theorem generate_answer_explicit_context (env : RagEnv) (q c : String) (h : c ≠ "") :
    (generate_answer env q (some c)).2 = [Event.chatCall] ∧
      ∀ r : AnswerResult, (generate_answer env q (some c)).1 = Except.ok r →
        r.sources = ["Selected Text"] ∧ r.confidence = 1 := by
  have ht := truthyStr_some_of_ne h
  unfold generate_answer relevant_docs
  rw [ht]
  simp only [if_true, Option.getD_some, List.isEmpty_cons, Bool.false_eq_true, if_false]
  cases env.chat system_prompt
      (user_prompt (context_text [⟨c, "Selected Text", 1⟩]) q) with
  | error e =>
    exact ⟨rfl, fun r hr => by cases hr⟩
  | ok a =>
    refine ⟨rfl, fun r hr => ?_⟩
    cases hr
    exact ⟨rfl, rfl⟩

/-- Concrete environment: embedding and index work, the index is empty,
chat succeeds. -/
def envOkEmpty : RagEnv :=
  ⟨fun _ => .ok [1], fun _ _ => .ok [], fun _ _ => .ok "ans"⟩

/-- Witness for C1. -/
theorem generate_answer_explicit_context_witness :
    ("ctx" : String) ≠ "" ∧
      ((generate_answer envOkEmpty "q" (some "ctx")).2 = [Event.chatCall] ∧
        ∀ r : AnswerResult, (generate_answer envOkEmpty "q" (some "ctx")).1 = Except.ok r →
          r.sources = ["Selected Text"] ∧ r.confidence = 1) :=
  ⟨by decide, generate_answer_explicit_context envOkEmpty "q" "ctx" (by decide)⟩

/-- C2: when no (truthy) explicit context is supplied and retrieval
yields zero results, `generate_answer` returns the fixed not-found
answer text, an empty source list and confidence 0, does not raise, and
never invokes the generative model. -/
theorem generate_answer_no_results (env : RagEnv) (q : String) (context : Option String)
    (hctx : truthyStr context = false) (hs : (search env q 3).1 = []) :
    (generate_answer env q context).1 = Except.ok ⟨notFoundAnswer, [], 0⟩ ∧
      Event.chatCall ∉ (generate_answer env q context).2 := by
  rw [generate_answer_of_search_nil hctx hs]
  exact ⟨rfl, chatCall_not_mem_search env q 3⟩

/-- Witness for C2. -/
theorem generate_answer_no_results_witness :
    truthyStr none = false ∧ (search envOkEmpty "q" 3).1 = [] ∧
      ((generate_answer envOkEmpty "q" none).1 = Except.ok ⟨notFoundAnswer, [], 0⟩ ∧
        Event.chatCall ∉ (generate_answer envOkEmpty "q" none).2) :=
  ⟨rfl, rfl, generate_answer_no_results envOkEmpty "q" none rfl rfl⟩

/-- C5: when no (truthy) explicit context is supplied and retrieval
returns a non-empty result sequence, a successful `generate_answer`
result carries the similarity score of the top-ranked (first) retrieved
chunk as its confidence, with the sources in rank order. -/
theorem generate_answer_confidence_top (env : RagEnv) (q : String)
    (context : Option String) (d : RetrievedDoc) (rest : List RetrievedDoc) (a : String)
    (hctx : truthyStr context = false)
    (hs : (search env q 3).1 = d :: rest)
    (hchat : env.chat system_prompt (user_prompt (context_text (d :: rest)) q) =
      Except.ok a) :
    (generate_answer env q context).1 =
      Except.ok ⟨a, (d :: rest).map (fun x => x.source), d.score⟩ := by
  unfold generate_answer
  rw [relevant_docs_of_not_truthy hctx, hs]
  simp only [List.isEmpty_cons, Bool.false_eq_true, if_false, hchat]

/-- Concrete environment: the index returns one hit with score 2, chat
succeeds. -/
def envHit : RagEnv :=
  ⟨fun _ => .ok [1], fun _ _ => .ok [⟨"t", "s", 2⟩], fun _ _ => .ok "ans"⟩

/-- Witness for C5. -/
theorem generate_answer_confidence_top_witness :
    truthyStr none = false ∧ (search envHit "q" 3).1 = [⟨"t", "s", 2⟩] ∧
      envHit.chat system_prompt (user_prompt (context_text [⟨"t", "s", 2⟩]) "q") =
        Except.ok "ans" ∧
      (generate_answer envHit "q" none).1 = Except.ok ⟨"ans", ["s"], (2 : ℚ)⟩ :=
  ⟨rfl, rfl, rfl,
    generate_answer_confidence_top envHit "q" none ⟨"t", "s", 2⟩ [] "ans" rfl rfl rfl⟩

/-- C6: a vector-index search failure makes `search` return an empty
result list instead of raising, and `generate_answer` then treats it as
the normal zero-result outcome. -/
theorem search_index_failure_degrades (env : RagEnv) (q e : String) (v : List ℚ)
    (context : Option String) (hctx : truthyStr context = false)
    (hembed : env.embed q = Except.ok v)
    (hv : env.vsearch v 3 = Except.error e) :
    (search env q 3).1 = [] ∧
      (generate_answer env q context).1 = Except.ok ⟨notFoundAnswer, [], 0⟩ := by
  have hs := search_fst_nil_of_vsearch_error 3 hembed hv
  refine ⟨hs, ?_⟩
  rw [generate_answer_of_search_nil hctx hs]

/-- Concrete environment: embedding works, the vector index raises,
chat succeeds. -/
def envIndexFail : RagEnv :=
  ⟨fun _ => .ok [1], fun _ _ => .error "index down", fun _ _ => .ok "ans"⟩

/-- Witness for C6. -/
theorem search_index_failure_degrades_witness :
    truthyStr none = false ∧ envIndexFail.embed "q" = Except.ok [1] ∧
      envIndexFail.vsearch [1] 3 = Except.error "index down" ∧
      ((search envIndexFail "q" 3).1 = [] ∧
        (generate_answer envIndexFail "q" none).1 =
          Except.ok ⟨notFoundAnswer, [], 0⟩) :=
  ⟨rfl, rfl, rfl,
    search_index_failure_degrades envIndexFail "q" "index down" [1] none rfl rfl rfl⟩

/-- C7: when the generative-model call fails, the error propagates
unchanged out of `generate_answer` whenever there are retrieved chunks;
no fallback answer is substituted. -/
theorem generate_answer_chat_failure (env : RagEnv) (q : String) (context : Option String)
    (e : String) (hchat : ∀ s u, env.chat s u = Except.error e)
    (hne : (relevant_docs env q context).1 ≠ []) :
    (generate_answer env q context).1 = Except.error e := by
  unfold generate_answer
  cases hd : (relevant_docs env q context).1 with
  | nil => exact absurd hd hne
  | cons d ds =>
    simp only [List.isEmpty_cons, Bool.false_eq_true, if_false, hchat]

/-- Concrete environment: retrieval works but the chat completion
raises. -/
def envChatFail : RagEnv :=
  ⟨fun _ => .ok [1], fun _ _ => .ok [⟨"t", "s", 2⟩], fun _ _ => .error "chat down"⟩

/-- Witness for C7. -/
theorem generate_answer_chat_failure_witness :
    (∀ s u, envChatFail.chat s u = Except.error "chat down") ∧
      (relevant_docs envChatFail "q" (some "passage")).1 ≠ [] ∧
      (generate_answer envChatFail "q" (some "passage")).1 = Except.error "chat down" :=
  ⟨fun _ _ => rfl, by decide,
    generate_answer_chat_failure envChatFail "q" (some "passage") "chat down"
      (fun _ _ => rfl) (by decide)⟩

/-- C9: an embedding failure during retrieval also degrades `search` to
an empty result list, and `generate_answer` without (truthy) explicit
context then returns the zero-confidence not-found answer rather than
surfacing the embedding error. -/
theorem search_embed_failure_degrades (env : RagEnv) (q e : String) (limit : Nat)
    (context : Option String) (hctx : truthyStr context = false)
    (hembed : env.embed q = Except.error e) :
    (search env q limit).1 = [] ∧
      (generate_answer env q context).1 = Except.ok ⟨notFoundAnswer, [], 0⟩ := by
  refine ⟨search_fst_nil_of_embed_error limit hembed, ?_⟩
  rw [generate_answer_of_search_nil hctx (search_fst_nil_of_embed_error 3 hembed)]

/-- Concrete environment: the embedding model raises. -/
def envEmbedFail : RagEnv :=
  ⟨fun _ => .error "embed down", fun _ _ => .ok [], fun _ _ => .ok "ans"⟩

/-- Witness for C9. -/
theorem search_embed_failure_degrades_witness :
    truthyStr none = false ∧ envEmbedFail.embed "q" = Except.error "embed down" ∧
      ((search envEmbedFail "q" 3).1 = [] ∧
        (generate_answer envEmbedFail "q" none).1 =
          Except.ok ⟨notFoundAnswer, [], 0⟩) :=
  ⟨rfl, rfl, search_embed_failure_degrades envEmbedFail "q" "embed down" 3 none rfl rfl⟩

/-! ## Claims about the indexing pipeline -/

theorem addChunks_doc_id (env : IndexEnv) (source : String) (total : Nat) :
    ∀ (chunks : List (List Char)) (i : Nat) (st : IndexState),
      st.doc_id = 1 + st.indexed.length →
      (addChunks env source total i st chunks).1.doc_id =
        1 + (addChunks env source total i st chunks).1.indexed.length := by
  intro chunks
  induction chunks with
  | nil =>
    intro i st h
    exact h
  | cons chunk rest ih =>
    intro i st h
    simp only [addChunks]
    cases hadd : env.add chunk (chunkSource source total i) st.doc_id with
    | ok u =>
      apply ih
      simp [h]
      omega
    | error e => exact h

theorem indexFile_doc_id (env : IndexEnv) (st : IndexState) (path : String)
    (h : st.doc_id = 1 + st.indexed.length) :
    (indexFile env st path).doc_id = 1 + (indexFile env st path).indexed.length := by
  unfold indexFile
  cases hr : env.read path with
  | error e => exact h
  | ok content =>
    by_cases hlen : (pyStrip content).length < 50
    · simp only [hlen, if_true]
      exact h
    · simp only [hlen, if_false]
      have hpres := addChunks_doc_id env path (split_content content 1000).length
        (split_content content 1000) 0 st h
      by_cases hb : (addChunks env path (split_content content 1000).length 0 st
          (split_content content 1000)).2 = true
      · simp only [hb, if_true]
        exact hpres
      · simp only [hb, if_false]
        exact hpres

theorem foldl_indexFile_doc_id (env : IndexEnv) :
    ∀ (files : List String) (st : IndexState), st.doc_id = 1 + st.indexed.length →
      (files.foldl (indexFile env) st).doc_id =
        1 + (files.foldl (indexFile env) st).indexed.length := by
  intro files
  induction files with
  | nil =>
    intro st h
    exact h
  | cons f fs ih =>
    intro st h
    exact ih _ (indexFile_doc_id env st f h)

/-- A document body of 60 characters (above the 50-character skip
threshold, a single paragraph). -/
def goodContent : List Char := List.replicate 60 'a'

/-- Concrete environment: reading `bad.md` raises, every other read
succeeds, every `add_document` succeeds. -/
def envIdx : IndexEnv :=
  ⟨fun p => if p = "bad.md" then .error "io error" else .ok goodContent,
   fun _ _ _ => .ok ()⟩

example : index_markdown_files envIdx ["bad.md", "good.md"] =
    ⟨2, [("good.md", 1)], ["bad.md"]⟩ := by decide

/-- A document of two 600-character paragraphs: under the pipeline's
fixed `max_length` of 1000 it splits into exactly two chunks. -/
def twoParaContent : List Char :=
  List.replicate 600 'a' ++ sepNN ++ List.replicate 600 'b'

set_option maxRecDepth 10000 in
example : split_content twoParaContent 1000 =
    [List.replicate 600 'a', List.replicate 600 'b'] := by decide

/-- Concrete environment: every read succeeds (`doc.md` holds the
two-chunk document, every other path the short single-chunk document),
and `add_document` raises exactly on the first chunk of `doc.md`;
adding any other chunk succeeds. -/
def envChunkFail : IndexEnv :=
  ⟨fun p => if p = "doc.md" then .ok twoParaContent else .ok goodContent,
   fun t _ _ => if t = List.replicate 600 'a' then .error "add failed" else .ok ()⟩

set_option maxRecDepth 10000 in
/-- C8 counterexample: `doc.md` splits into two chunks and
`add_document` raises on the first one; the run continues with the next
file, but the second chunk of `doc.md` is never indexed - the final
state omits `"doc.md (Part 2)"` - even though adding it would have
succeeded (second conjunct).  So after a single-chunk failure not all
remaining items are still processed: the rest of that document's chunks
are skipped by the per-file exception handler. -/
theorem indexing_chunk_failure_skips_rest :
    index_markdown_files envChunkFail ["doc.md", "good.md"] =
        ⟨2, [("good.md", 1)], ["doc.md"]⟩ ∧
      envChunkFail.add (List.replicate 600 'b') "doc.md (Part 2)" 1 = Except.ok () := by
  exact ⟨by decide, rfl⟩

/-- C8 (amended): a failure while processing a single document -
including an `add_document` failure on one of its chunks - is caught by
the per-file handler and does not abort the run: all remaining
documents are still processed (the whole run equals continuing over the
files after the possibly-failing one), the remaining chunks of the
failing document itself are skipped (`addChunks` stops at the failing
chunk, third conjunct), and the reported final count (`doc_id - 1`)
equals the number of chunks successfully indexed. -/
theorem indexing_isolates_failures (env : IndexEnv) (files pre post : List String)
    (f : String) (h : files = pre ++ f :: post)
    (source : String) (total i : Nat) (st : IndexState)
    (c : List Char) (rest : List (List Char)) (e : String)
    (hadd : env.add c (chunkSource source total i) st.doc_id = Except.error e) :
    index_markdown_files env files =
        post.foldl (indexFile env) (indexFile env (index_markdown_files env pre) f) ∧
      finalCount (index_markdown_files env files) =
        (index_markdown_files env files).indexed.length ∧
      addChunks env source total i st (c :: rest) = (st, false) := by
  refine ⟨?_, ?_, ?_⟩
  · rw [h]
    unfold index_markdown_files
    rw [List.foldl_append, List.foldl_cons]
  · unfold index_markdown_files finalCount
    have hinv := foldl_indexFile_doc_id env files ⟨1, [], []⟩ (by simp)
    omega
  · simp only [addChunks, hadd]

set_option maxRecDepth 10000 in
/-- Witness for the amended C8: a run whose first document fails on its
first chunk, followed by a good document. -/
theorem indexing_isolates_failures_witness :
    (["doc.md", "good.md"] : List String) = [] ++ "doc.md" :: ["good.md"] ∧
      envChunkFail.add (List.replicate 600 'a') (chunkSource "doc.md" 2 0)
          (⟨1, [], []⟩ : IndexState).doc_id = Except.error "add failed" ∧
      (index_markdown_files envChunkFail ["doc.md", "good.md"] =
          (["good.md"] : List String).foldl (indexFile envChunkFail)
            (indexFile envChunkFail (index_markdown_files envChunkFail []) "doc.md") ∧
        finalCount (index_markdown_files envChunkFail ["doc.md", "good.md"]) =
          (index_markdown_files envChunkFail ["doc.md", "good.md"]).indexed.length ∧
        addChunks envChunkFail "doc.md" 2 0 ⟨1, [], []⟩
            [List.replicate 600 'a', List.replicate 600 'b'] = (⟨1, [], []⟩, false)) :=
  ⟨rfl, rfl,
    indexing_isolates_failures envChunkFail ["doc.md", "good.md"] [] ["good.md"] "doc.md"
      rfl "doc.md" 2 0 ⟨1, [], []⟩ (List.replicate 600 'a') [List.replicate 600 'b']
      "add failed" rfl⟩

end PhysicalAIBook
